import Mathlib

/-!
Verification of `src/sled.rs`: a thin adapter exposing the `KeyValueStore` /
`Batch` traits over the sled embedded database.

Shallow embedding notes.

The adapter stores `db : Arc<Db>` and `Store::batch` merely clones the `Arc`,
so the store and every batch obtained from it alias ONE underlying database.
We therefore model the shared database as a single explicitly-threaded state
value `Db`.  `Batch::put` calls `db.set` (applied immediately to the shared
handle), `Batch::delete` calls `db.del`, and `Batch::commit` calls
`db.flush()` (a durability sync that does not change the visible map).

The sled engine itself is an external crate.  Its visible-state semantics is
modelled from the spec's own description of the source (sections 1 and 9:
the adapter "forwards `get`, `exists`, `put`, `delete`, and `commit` calls
directly onto an already-implemented engine ... and provides batching only
as a façade around a shared handle"; "the source silently treats batch
`commit` as flush-to-durable-storage"): the visible state is a finite map
from byte sequences to byte sequences, `set`/`del` update it in place,
`flush` forces durability and leaves the visible map unchanged.  The health
of the storage medium is modelled by a boolean `flushOk`; a flush on an
unhealthy medium returns an error (and, as in sled, leaves the already
applied in-memory writes visible).
-/

/-- Byte sequences (`&[u8]` / `Vec<u8>` in the source). -/
abbrev Bytes := List Nat

/-- First-match lookup in an association list (the engine's point lookup). -/
def getAssoc : List (Bytes × Bytes) → Bytes → Option Bytes
  | [], _ => none
  | (k', v) :: t, k => if k' = k then some v else getAssoc t k

/-- Insert-or-replace in an association list (the engine's `set`). -/
def setAssoc : List (Bytes × Bytes) → Bytes → Bytes → List (Bytes × Bytes)
  | [], k, v => [(k, v)]
  | (k', v') :: t, k, v => if k' = k then (k, v) :: t else (k', v') :: setAssoc t k v

/-- Removal of a key from an association list (the engine's `del`). -/
def delAssoc : List (Bytes × Bytes) → Bytes → List (Bytes × Bytes)
  | [], _ => []
  | (k', v') :: t, k => if k' = k then delAssoc t k else (k', v') :: delAssoc t k

/-- The adapter's error type: `Error::DBError(String)`, produced by the
`From<sled::Error>` impl in `src/sled.rs`. -/
inductive Error where
  | DBError (msg : String)
  deriving DecidableEq

/-- Modelled from the spec: the sled engine's visible state — a map from
keys to values (`data`) together with the health of the storage medium
(`flushOk`), which decides whether a durability flush succeeds. -/
structure Db where
  data : List (Bytes × Bytes)
  flushOk : Bool
  deriving DecidableEq

/-- Engine point lookup (`sled::Db::get`). -/
def Db.get (db : Db) (k : Bytes) : Option Bytes := getAssoc db.data k

/-- Engine insert (`sled::Db::set`): applied immediately to the shared handle. -/
def Db.set (db : Db) (k v : Bytes) : Db := { db with data := setAssoc db.data k v }

/-- Engine delete (`sled::Db::del`): applied immediately to the shared handle. -/
def Db.del (db : Db) (k : Bytes) : Db := { db with data := delAssoc db.data k }

/-- Engine existence check (`sled::Db::contains_key`). -/
def Db.containsKey (db : Db) (k : Bytes) : Bool := (db.get k).isSome

/-- Engine durability flush (`sled::Db::flush`): succeeds exactly when the
storage medium is healthy; in either case the visible map is unchanged. -/
def Db.flush (db : Db) : Except Error Db :=
  if db.flushOk then .ok db else .error (.DBError "flush failed")

/-- The adapter's `Store`.  The single `db` field is the SHARED database
state: in the source it is an `Arc<Db>` aliased by the store and every
batch cloned from it, so one `Db` value stands for the state seen by all
of them at that instant. -/
structure Store where
  db : Db
  deriving DecidableEq

/-- `Store::get`: `self.db.get(key)?.map(|v| v.to_vec())`. -/
def Store.get (s : Store) (k : Bytes) : Except Error (Option Bytes) :=
  .ok (s.db.get k)

/-- `Store::exists`: `self.db.contains_key(key).map_err(Into::into)`. -/
def Store.containsKey (s : Store) (k : Bytes) : Except Error Bool :=
  .ok (s.db.containsKey k)

/-- `Store::batch`: clones the `Arc` — the returned batch aliases the very
same shared database state, so it is represented by the same `Store` value. -/
def Store.batch (s : Store) : Except Error Store :=
  .ok s

/-- `Batch::put`: `self.db.set(key, value)?` — forwarded immediately to the
shared handle. -/
def Batch.put (s : Store) (k v : Bytes) : Except Error Store :=
  .ok { db := s.db.set k v }

/-- `Batch::delete`: `self.db.del(key)?` — forwarded immediately to the
shared handle. -/
def Batch.delete (s : Store) (k : Bytes) : Except Error Store :=
  .ok { db := s.db.del k }

/-- `Batch::commit`: `self.db.flush()?` — a durability sync on the shared
handle; it does not modify the visible map. -/
def Batch.commit (s : Store) : Except Error Store :=
  (s.db.flush).map Store.mk

/-- A freshly opened store on an empty, healthy directory (the state
produced by a successful `Store::new` on a new temp dir, as in the tests). -/
def Store.fresh : Store := ⟨⟨[], true⟩⟩

/-- Outcome of the adapter's constructor: either a store handle, or an
abort of the whole process (Rust `panic` raised by `.expect(..)`). -/
inductive NewResult where
  | store (s : Store)
  | aborted (msg : String)
  deriving DecidableEq

/-- `Store::new`: `Db::start_default(path).expect("Failed to open sled")`.
The argument is the outcome of the engine-level open, modelled from the
spec (section 6: `open` fails if the path is inaccessible or holds an
unrecoverable corrupt log); `.expect` returns the handle on success and
aborts the process with the given message on failure — the adapter never
returns an error value from `new`. -/
def Store.newRun (r : Except String Db) : NewResult :=
  match r with
  | .ok db => .store ⟨db⟩
  | .error _ => .aborted "Failed to open sled"

deriving instance DecidableEq for Except

/- Association-list lemmas. -/

theorem getAssoc_setAssoc (l : List (Bytes × Bytes)) (k v k' : Bytes) :
    getAssoc (setAssoc l k v) k' = if k = k' then some v else getAssoc l k' := by
  induction l with
  | nil =>
    by_cases h : k = k' <;> simp [setAssoc, getAssoc, h]
  | cons p t ih =>
    obtain ⟨k0, v0⟩ := p
    by_cases h0 : k0 = k
    · subst h0
      by_cases h : k0 = k' <;> simp [setAssoc, getAssoc, h]
    · by_cases h : k0 = k'
      · subst h
        simp [setAssoc, getAssoc, h0, Ne.symm (by simpa using h0)]
      · simp [setAssoc, getAssoc, h0, h, ih]

theorem getAssoc_delAssoc (l : List (Bytes × Bytes)) (k k' : Bytes) :
    getAssoc (delAssoc l k) k' = if k = k' then none else getAssoc l k' := by
  induction l with
  | nil =>
    by_cases h : k = k' <;> simp [delAssoc, getAssoc, h]
  | cons p t ih =>
    obtain ⟨k0, v0⟩ := p
    by_cases h0 : k0 = k
    · subst h0
      by_cases h : k0 = k'
      · subst h
        simp [delAssoc, getAssoc, ih]
      · simp [delAssoc, getAssoc, h, ih]
    · by_cases h : k0 = k'
      · subst h
        simp [delAssoc, getAssoc, h0, Ne.symm (by simpa using h0), ih]
      · simp [delAssoc, getAssoc, h0, h, ih]

theorem commit_of_flushOk (s : Store) (h : s.db.flushOk = true) :
    Batch.commit s = .ok s := by
  simp [Batch.commit, Db.flush, h, Except.map]

/- Sequences of mutations, each in its own committed batch (for the
last-write-wins property). -/

/-- A single mutation, as issued through a batch. -/
inductive Op where
  | put (k v : Bytes)
  | del (k : Bytes)
  deriving DecidableEq

/-- Effect of one mutation on the engine's visible map. -/
def applyOp (d : List (Bytes × Bytes)) : Op → List (Bytes × Bytes)
  | .put k v => setAssoc d k v
  | .del k => delAssoc d k

/-- Effect of a sequence of mutations on the engine's visible map. -/
def applyOps (d : List (Bytes × Bytes)) : List Op → List (Bytes × Bytes)
  | [] => d
  | op :: ops => applyOps (applyOp d op) ops

/-- Issue one mutation through the adapter: obtain a batch, perform the
`put`/`delete`, commit it. -/
def commitOp (s : Store) (op : Op) : Except Error Store := do
  let b ← Store.batch s
  let b ←
    match op with
    | .put k v => Batch.put b k v
    | .del k => Batch.delete b k
  Batch.commit b

/-- Issue a sequence of mutations through the adapter, committed in order. -/
def commitOps (s : Store) : List Op → Except Error Store
  | [] => .ok s
  | op :: ops => do commitOps (← commitOp s op) ops

/-- Follows the spec's words: the outcome of the latest operation touching
`k` in `ops` — `some (some v)` if it was `put k v`, `some none` if it was a
`delete`, `none` if no operation ever touched `k`. -/
def specLatestOutcome : List Op → Bytes → Option (Option Bytes)
  | [], _ => none
  | op :: ops, k =>
    match specLatestOutcome ops k with
    | some r => some r
    | none =>
      match op with
      | .put k' v => if k' = k then some (some v) else none
      | .del k' => if k' = k then some none else none

/-- Follows the spec's words: the value a `get` must return after `ops` —
the latest put value, or absent after a latest delete or when no operation
ever touched the key. -/
def specLatestWins (ops : List Op) (k : Bytes) : Option Bytes :=
  (specLatestOutcome ops k).getD none

theorem getAssoc_applyOps (ops : List Op) :
    ∀ d k, getAssoc (applyOps d ops) k =
      match specLatestOutcome ops k with
      | some r => r
      | none => getAssoc d k := by
  induction ops with
  | nil => intro d k; simp [applyOps, specLatestOutcome]
  | cons op ops ih =>
    intro d k
    show getAssoc (applyOps (applyOp d op) ops) k = _
    rw [ih]
    cases h : specLatestOutcome ops k with
    | some r => simp [specLatestOutcome, h]
    | none =>
      cases op with
      | put k' v =>
        by_cases hk : k' = k <;>
          simp [specLatestOutcome, h, applyOp, getAssoc_setAssoc, hk]
      | del k' =>
        by_cases hk : k' = k <;>
          simp [specLatestOutcome, h, applyOp, getAssoc_delAssoc, hk]

theorem commitOp_of_flushOk (s : Store) (op : Op) (h : s.db.flushOk = true) :
    commitOp s op = .ok ⟨⟨applyOp s.db.data op, s.db.flushOk⟩⟩ := by
  cases op with
  | put k v =>
    simp [commitOp, Store.batch, Batch.put, applyOp, bind, Except.bind]
    rw [commit_of_flushOk _ (by simpa [Db.set] using h)]
    simp [Db.set, h]
  | del k =>
    simp [commitOp, Store.batch, Batch.delete, applyOp, bind, Except.bind]
    rw [commit_of_flushOk _ (by simpa [Db.del] using h)]
    simp [Db.del, h]

theorem commitOps_of_flushOk (ops : List Op) :
    ∀ s : Store, s.db.flushOk = true →
      commitOps s ops = .ok ⟨⟨applyOps s.db.data ops, true⟩⟩ := by
  induction ops with
  | nil =>
    intro s h
    cases s with
    | mk db => cases db with
      | mk d f => cases f with
        | true => rfl
        | false => exact absurd h (by simp)
  | cons op ops ih =>
    intro s h
    show (do commitOps (← commitOp s op) ops) = _
    rw [commitOp_of_flushOk s op h, h]
    simp [bind, Except.bind]
    exact ih _ rfl

/- Trace semantics of the public API (for read-effect-freeness). -/

/-- One call of the adapter's public surface. -/
inductive Call where
  | getCall (k : Bytes)
  | containsCall (k : Bytes)
  | putCall (k v : Bytes)
  | delCall (k : Bytes)
  | commitCall
  deriving DecidableEq

/-- Read-only calls: `get` and `exists`. -/
def Call.isRead : Call → Bool
  | .getCall _ => true
  | .containsCall _ => true
  | _ => false

/-- State transformation of one call on the shared database state.  `get`
and `exists` take `&self` and return only a value, so the state is the one
they were given; `put`/`delete`/`commit` thread the state their adapter
function returns (a failed commit keeps the already-applied state, as the
shared handle retains it). -/
def stepCall (s : Store) : Call → Store
  | .getCall _ => s
  | .containsCall _ => s
  | .putCall k v =>
    match Batch.put s k v with
    | .ok s' => s'
    | .error _ => s
  | .delCall k =>
    match Batch.delete s k with
    | .ok s' => s'
    | .error _ => s
  | .commitCall =>
    match Batch.commit s with
    | .ok s' => s'
    | .error _ => s

/-- Run a sequence of calls, threading the shared state. -/
def runCalls (s : Store) : List Call → Store
  | [] => s
  | c :: cs => runCalls (stepCall s c) cs

theorem runCalls_filter_reads (cs : List Call) :
    ∀ s : Store, runCalls s cs = runCalls s (cs.filter fun c => !(Call.isRead c)) := by
  induction cs with
  | nil => intro s; rfl
  | cons c cs ih =>
    intro s
    cases c with
    | getCall k => simpa [runCalls, stepCall, List.filter, Call.isRead] using ih s
    | containsCall k => simpa [runCalls, stepCall, List.filter, Call.isRead] using ih s
    | putCall k v => simpa [runCalls, List.filter, Call.isRead] using ih (stepCall s (.putCall k v))
    | delCall k => simpa [runCalls, List.filter, Call.isRead] using ih (stepCall s (.delCall k))
    | commitCall => simpa [runCalls, List.filter, Call.isRead] using ih (stepCall s .commitCall)

/- Claim theorems. -/

/-- C1 counterexample: on an unhealthy storage medium, a put issued through
a batch is applied to the shared handle, the commit returns an error, and a
subsequent `get` on the written key returns the batch's value — not the
pre-batch result (`None`).  Commit failure does not roll anything back. -/
theorem commit_error_visible_change_cex :
    Batch.put ⟨⟨[], false⟩⟩ [0] [1] = .ok ⟨⟨[([0], [1])], false⟩⟩ ∧
    Batch.commit ⟨⟨[([0], [1])], false⟩⟩ = .error (.DBError "flush failed") ∧
    Store.get ⟨⟨[], false⟩⟩ [0] = .ok none ∧
    Store.get ⟨⟨[([0], [1])], false⟩⟩ [0] = .ok (some [1]) := by
  refine ⟨by decide, by decide, by decide, by decide⟩

/-- C1 (amended): when `Batch.commit()` returns an error, the operations
already issued through the batch REMAIN visible: a `put(k, v)` still makes
`get(k)` return `Some(v)` and a `delete(k)` still makes `get(k)` return
`None` — they were applied to the shared handle at `put`/`delete` time,
and the failed commit (a durability flush) changes nothing about the
visible state. -/
theorem commit_error_ops_remain_visible (s0 s1 t0 t1 : Store) (k v k' : Bytes)
    (e e' : Error)
    (hput : Batch.put s0 k v = .ok s1) (herr : Batch.commit s1 = .error e)
    (hdel : Batch.delete t0 k' = .ok t1) (herr' : Batch.commit t1 = .error e') :
    Store.get s1 k = .ok (some v) ∧ Store.get t1 k' = .ok none := by
  have h1 : s1 = ⟨s0.db.set k v⟩ := by
    simpa [Batch.put, eq_comm] using hput
  have h2 : t1 = ⟨t0.db.del k'⟩ := by
    simpa [Batch.delete, eq_comm] using hdel
  subst h1; subst h2
  constructor
  · simp [Store.get, Db.get, Db.set, getAssoc_setAssoc]
  · simp [Store.get, Db.get, Db.del, getAssoc_delAssoc]

/-- C1 witness: the amended theorem at concrete unhealthy stores — a put
and a delete each followed by a failing commit. -/
theorem commit_error_ops_remain_visible_witness :
    Store.get ⟨⟨[([0], [1])], false⟩⟩ [0] = .ok (some [1]) ∧
    Store.get ⟨⟨[], false⟩⟩ [0] = .ok none :=
  commit_error_ops_remain_visible ⟨⟨[], false⟩⟩ ⟨⟨[([0], [1])], false⟩⟩
    ⟨⟨[([0], [1])], false⟩⟩ ⟨⟨[], false⟩⟩ [0] [1] [0]
    (.DBError "flush failed") (.DBError "flush failed")
    (by decide) (by decide) (by decide) (by decide)

/-- C2 counterexample: on a fresh store, obtain a batch (which aliases the
same shared handle) and issue a put; before any commit, `get` on the store
already returns the new value, not the pre-batch result. -/
theorem batch_buffered_cex :
    Store.batch Store.fresh = .ok Store.fresh ∧
    Batch.put Store.fresh [0] [1] = .ok ⟨⟨[([0], [1])], true⟩⟩ ∧
    Store.get Store.fresh [0] = .ok none ∧
    Store.get ⟨⟨[([0], [1])], true⟩⟩ [0] = .ok (some [1]) := by
  refine ⟨by decide, by decide, by decide, by decide⟩

/-- C2 (amended): batch operations are NOT buffered: `batch.put` and
`batch.delete` are forwarded immediately to the shared database handle, so
before any commit a `get` on the store already observes them — `Some(v)`
after `put(k, v)` and `None` after `delete(k)`. -/
theorem batch_ops_visible_before_commit (s b s1 s2 : Store) (k v : Bytes)
    (_hb : Store.batch s = .ok b)
    (hput : Batch.put b k v = .ok s1)
    (hdel : Batch.delete b k = .ok s2) :
    Store.get s1 k = .ok (some v) ∧ Store.get s2 k = .ok none := by
  have h1 : s1 = ⟨b.db.set k v⟩ := by
    simpa [Batch.put, eq_comm] using hput
  have h2 : s2 = ⟨b.db.del k⟩ := by
    simpa [Batch.delete, eq_comm] using hdel
  subst h1; subst h2
  constructor
  · simp [Store.get, Db.get, Db.set, getAssoc_setAssoc]
  · simp [Store.get, Db.get, Db.del, getAssoc_delAssoc]

/-- C2 witness: the amended theorem at a concrete fresh store. -/
theorem batch_ops_visible_before_commit_witness :
    Store.get ⟨⟨[([0], [1])], true⟩⟩ [0] = .ok (some [1]) ∧
    Store.get ⟨⟨[], true⟩⟩ [0] = .ok none :=
  batch_ops_visible_before_commit Store.fresh Store.fresh
    ⟨⟨[([0], [1])], true⟩⟩ ⟨⟨[], true⟩⟩ [0] [1]
    (by decide) (by decide) (by decide)

/-- C4: `exists` agrees with `get` — for every store state and key,
`exists` returns `Ok(true)` exactly when `get` returns `Ok(Some(_))` and
`Ok(false)` exactly when `get` returns `Ok(None)`. -/
theorem containsKey_iff_get (s : Store) (k : Bytes) :
    (Store.containsKey s k = .ok true ↔ ∃ v, Store.get s k = .ok (some v)) ∧
    (Store.containsKey s k = .ok false ↔ Store.get s k = .ok none) := by
  cases h : s.db.get k <;>
    simp [Store.containsKey, Store.get, Db.containsKey, h]

/-- C8 counterexample: when the engine-level open fails (inaccessible
path), the adapter's `Store::new` does not return an error value to the
caller — it aborts the process (Rust panic via `.expect`). -/
theorem new_error_aborts_cex :
    Store.newRun (.error "path inaccessible") = .aborted "Failed to open sled" := by
  decide

/-- C8 (amended): `Store::new` never reports an open failure as a returned
error value: when the engine open fails it aborts the process with the
message `Failed to open sled`, and it returns a store handle exactly when
the engine open succeeds. -/
theorem new_aborts_iff_open_fails :
    (∀ e : String, Store.newRun (.error e) = .aborted "Failed to open sled") ∧
    (∀ db : Db, Store.newRun (.ok db) = .store ⟨db⟩) :=
  ⟨fun _ => rfl, fun _ => rfl⟩

/-- C3: last-write-wins — for every finite sequence of put/delete
operations committed in order starting from a fresh store, a subsequent
`get(key)` returns the value of the latest committed operation on that key,
or absent if that latest operation was a delete or no operation ever
touched the key. -/
theorem committed_ops_last_write_wins (ops : List Op) (k : Bytes) (s : Store)
    (h : commitOps Store.fresh ops = .ok s) :
    Store.get s k = .ok (specLatestWins ops k) := by
  rw [commitOps_of_flushOk ops Store.fresh rfl] at h
  simp only [Except.ok.injEq] at h
  subst h
  simp only [Store.get, Db.get, Except.ok.injEq]
  show getAssoc (applyOps (Store.fresh).db.data ops) k = specLatestWins ops k
  rw [getAssoc_applyOps]
  cases hh : specLatestOutcome ops k <;>
    simp [hh, specLatestWins, Store.fresh, getAssoc]

/-- C3 witness: a concrete history with an overwrite and a delete. -/
theorem committed_ops_last_write_wins_witness :
    Store.get ⟨⟨[([0], [2]), ([3], [4])], true⟩⟩ [0] =
      .ok (specLatestWins [.put [0] [1], .del [0], .put [0] [2], .put [3] [4]] [0]) :=
  committed_ops_last_write_wins
    [.put [0] [1], .del [0], .put [0] [2], .put [3] [4]] [0]
    ⟨⟨[([0], [2]), ([3], [4])], true⟩⟩ (by decide)

/-- C5: scenario A — from an empty store, committing one batch holding
`put(k1, v1)` then `put(k2, v2)` (k1, k2, k3 pairwise distinct) makes
`get(k1)` return `Some(v1)`, `get(k2)` return `Some(v2)` and `get(k3)`
return `None`. -/
theorem scenario_a (k1 k2 k3 v1 v2 : Bytes)
    (h12 : k1 ≠ k2) (h13 : k1 ≠ k3) (h23 : k2 ≠ k3) :
    ∃ s : Store,
      (do
        let b ← Store.batch Store.fresh
        let b1 ← Batch.put b k1 v1
        let b2 ← Batch.put b1 k2 v2
        Batch.commit b2) = .ok s ∧
      Store.get s k1 = .ok (some v1) ∧
      Store.get s k2 = .ok (some v2) ∧
      Store.get s k3 = .ok none := by
  refine ⟨⟨⟨setAssoc (setAssoc [] k1 v1) k2 v2, true⟩⟩, ?_, ?_, ?_, ?_⟩
  · simp only [Store.batch, Batch.put, bind, Except.bind, Store.fresh, Db.set]
    exact commit_of_flushOk _ rfl
  · simp [Store.get, Db.get, getAssoc_setAssoc, Ne.symm h12]
  · simp [Store.get, Db.get, getAssoc_setAssoc]
  · simp [Store.get, Db.get, getAssoc_setAssoc, h13, h23, getAssoc]

/-- C5 witness: scenario A at concrete distinct keys. -/
theorem scenario_a_witness :
    ∃ s : Store,
      (do
        let b ← Store.batch Store.fresh
        let b1 ← Batch.put b [0] [9]
        let b2 ← Batch.put b1 [1] [8]
        Batch.commit b2) = .ok s ∧
      Store.get s [0] = .ok (some [9]) ∧
      Store.get s [1] = .ok (some [8]) ∧
      Store.get s [2] = .ok none :=
  scenario_a [0] [1] [2] [9] [8] (by decide) (by decide) (by decide)

/-- C6: scenario B — committing `[put(k1, v1)]` and then committing
`[delete(k1)]` makes a subsequent `get(k1)` return `None` and `exists(k1)`
return `false`. -/
theorem scenario_b (k1 v1 : Bytes) :
    ∃ s : Store,
      (do
        let b ← Store.batch Store.fresh
        let b1 ← Batch.put b k1 v1
        let s1 ← Batch.commit b1
        let b2 ← Store.batch s1
        let b3 ← Batch.delete b2 k1
        Batch.commit b3) = .ok s ∧
      Store.get s k1 = .ok none ∧
      Store.containsKey s k1 = .ok false := by
  refine ⟨⟨⟨[], true⟩⟩, ?_, by simp [Store.get, Db.get, getAssoc],
    by simp [Store.containsKey, Db.containsKey, Db.get, getAssoc]⟩
  simp [Store.batch, Batch.put, Batch.delete, Batch.commit, bind, Except.bind,
    Store.fresh, Db.set, Db.del, Db.flush, Except.map, setAssoc, delAssoc]

/-- C7: on a freshly opened empty store, `get` returns `Ok(None)` for every
key; and deleting a never-inserted key through a committed batch succeeds,
after which `get` of that key still returns `Ok(None)`. -/
theorem empty_store_missing_key (k : Bytes) :
    Store.get Store.fresh k = .ok none ∧
    ∃ s : Store,
      (do
        let b ← Store.batch Store.fresh
        let b1 ← Batch.delete b k
        Batch.commit b1) = .ok s ∧
      Store.get s k = .ok none := by
  refine ⟨by simp [Store.get, Store.fresh, Db.get, getAssoc], ⟨⟨[], true⟩⟩, ?_,
    by simp [Store.get, Db.get, getAssoc]⟩
  simp [Store.batch, Batch.delete, Batch.commit, bind, Except.bind,
    Store.fresh, Db.del, Db.flush, Except.map, delAssoc]

/-- C9: empty values are distinct from absence — committing a batch holding
`put(key, [])` (the empty byte sequence) on any store whose medium is
healthy makes `get(key)` return `Ok(Some([]))`, not `None`. -/
theorem put_empty_value_not_absent (s : Store) (k : Bytes)
    (h : s.db.flushOk = true) :
    ∃ s1 : Store,
      (do
        let b ← Store.batch s
        let b1 ← Batch.put b k []
        Batch.commit b1) = .ok s1 ∧
      Store.get s1 k = .ok (some []) := by
  refine ⟨⟨s.db.set k []⟩, ?_, ?_⟩
  · simp only [Store.batch, Batch.put, bind, Except.bind]
    exact commit_of_flushOk _ (by simpa [Db.set] using h)
  · simp [Store.get, Db.get, Db.set, getAssoc_setAssoc]

/-- C9 witness: the empty value round-trips on a fresh store. -/
theorem put_empty_value_not_absent_witness :
    ∃ s1 : Store,
      (do
        let b ← Store.batch Store.fresh
        let b1 ← Batch.put b [0] []
        Batch.commit b1) = .ok s1 ∧
      Store.get s1 [0] = .ok (some []) :=
  put_empty_value_not_absent Store.fresh [0] (by decide)

/-- C10: reads are effect-free — `get` and `exists` leave the shared state
exactly as given, and dropping every read call from an arbitrary call
sequence changes neither the final state nor the result of any later `get`
or `exists`. -/
theorem reads_are_effect_free (s : Store) (cs : List Call) :
    (∀ k, stepCall s (.getCall k) = s ∧ stepCall s (.containsCall k) = s) ∧
    runCalls s cs = runCalls s (cs.filter fun c => !(Call.isRead c)) ∧
    ∀ k, Store.get (runCalls s cs) k
        = Store.get (runCalls s (cs.filter fun c => !(Call.isRead c))) k ∧
      Store.containsKey (runCalls s cs) k
        = Store.containsKey (runCalls s (cs.filter fun c => !(Call.isRead c))) k := by
  refine ⟨fun k => ⟨rfl, rfl⟩, runCalls_filter_reads cs s, fun k => ?_⟩
  rw [runCalls_filter_reads cs s]
  exact ⟨rfl, rfl⟩
